import Mathlib

/-! Verification of the statistics pipeline of `results_analysis.py`.

The source module reads closed trading positions, enriches them with
US/Eastern calendar datetimes, and computes an analysis report:
monthly profit buckets (`_calc_monthly_profits`), a Sharpe-ratio section,
a winning/losing trade breakdown, a per-symbol rollup
(`_generate_symbol_data`), and a general section (`_generate_analysis`).

Modelling conventions:
* Python floats are modelled as `ℚ` (exact arithmetic); the one place the
  code produces an irrational value (`numpy.std`, a square root) is modelled
  by carrying the variance (a rational) and taking `Real.sqrt` in a separate
  definition.
* Python exceptions that the code can actually raise on the modelled paths
  (`IndexError` from `positions[0]`, `ZeroDivisionError` from `/` on Python
  ints/floats) are modelled with `Except PyError`.  Division performed by
  numpy on `float64` values does NOT raise: it yields `inf`/`-inf`/`nan`,
  which is modelled by the `FloatClass` classification below.
* Python `datetime` values are modelled by their calendar fields; the code
  only ever reads `.month`, `.day`, `.year` and `.date()` of the already
  computed `open_datetime` / `close_datetime` attributes.
-/

/-- Calendar datetime view of a position timestamp (the fields of the Python
`datetime` object that the analysis code reads, plus the time-of-day fields
used only for ordering). -/
structure DateTime where
  year : ℤ
  month : ℕ
  day : ℕ
  hour : ℕ
  minute : ℕ
  second : ℕ
deriving DecidableEq, Repr

/-- Calendar date, the result of Python's `datetime.date()`. -/
structure Date where
  year : ℤ
  month : ℕ
  day : ℕ
deriving DecidableEq, Repr

/-- Python `t.date()`. -/
def DateTime.date (t : DateTime) : Date := ⟨t.year, t.month, t.day⟩

/-- The `(time.day, time.month, time.year)` tuple used as a set element for
counting distinct traded days. -/
def dayKey (t : DateTime) : ℕ × ℕ × ℤ := (t.day, t.month, t.year)

/-- The `EnrichedPosition` namedtuple: the raw `Position` fields plus the
per-batch `symbol`/`std_dev` metadata and the derived calendar datetimes. -/
structure EnrichedPosition where
  open_bsi : ℚ
  open_price : ℚ
  open_timestamp : ℤ
  close_bsi : ℚ
  close_price : ℚ
  close_timestamp : ℤ
  profit : ℚ
  symbol : String
  std_dev : ℚ
  open_datetime : DateTime
  close_datetime : DateTime
deriving DecidableEq, Repr

/-- The Python exceptions the analysis code can raise on the modelled paths:
`IndexError` (from `positions[0]` on an empty list) and `ZeroDivisionError`
(from `/` with a zero right operand on Python numbers).  The source defines
no error classes of its own. -/
inductive PyError where
  | indexError
  | zeroDivisionError
deriving DecidableEq, Repr

deriving instance DecidableEq for Except

/-- Lexicographic order on the calendar fields of a `DateTime`
(year, month, day, hour, minute, second), as a boolean. -/
def dtLeB (a b : DateTime) : Bool :=
  decide (a.year < b.year) ||
  (decide (a.year = b.year) &&
    (decide (a.month < b.month) ||
    (decide (a.month = b.month) &&
      (decide (a.day < b.day) ||
      (decide (a.day = b.day) &&
        (decide (a.hour < b.hour) ||
        (decide (a.hour = b.hour) &&
          (decide (a.minute < b.minute) ||
          (decide (a.minute = b.minute) && decide (a.second ≤ b.second))))))))))

/-- The precondition of the aggregation functions: the position list is
sorted ascending by `open_datetime` (the order produced by
`all_positions.sort(key=lambda pos: pos.open_datetime)` in `main`). -/
def sortedByOpenDT : List EnrichedPosition → Bool
  | [] => true
  | [_] => true
  | a :: b :: rest => dtLeB a.open_datetime b.open_datetime && sortedByOpenDT (b :: rest)

/-- The loop of `_calc_monthly_profits`: walk the positions keeping the month
of the running bucket (`curr_month`) and its accumulated profit
(`curr_result`); emit the running bucket whenever the month changes, and emit
the final bucket after the loop. -/
def monthlyLoop : List EnrichedPosition → ℕ → ℚ → List ℚ
  | [], _, currResult => [currResult]
  | p :: ps, currMonth, currResult =>
    if p.open_datetime.month ≠ currMonth then
      currResult :: monthlyLoop ps p.open_datetime.month p.profit
    else
      monthlyLoop ps currMonth (currResult + p.profit)

/-- Source `_calc_monthly_profits`: `positions[0]` raises `IndexError` on an
empty list; otherwise the loop starts with `curr_month` equal to the first
position's open month and `curr_result = 0.0`, and iterates over ALL
positions (the first position is absorbed by the `else` branch since its
month equals `curr_month`). -/
def _calc_monthly_profits (positions : List EnrichedPosition) : Except PyError (List ℚ) :=
  match positions with
  | [] => .error .indexError
  | p0 :: _ => .ok (monthlyLoop positions p0.open_datetime.month 0)

/-- Module constant `TREASURY_MONTHLY_YIELD = 0.12`. -/
def TREASURY_MONTHLY_YIELD : ℚ := 12 / 100

/-- Source line `excess_profits = [p - TREASURY_MONTHLY_YIELD for p in
monthly_profits]`, with the risk-free rate abstracted as a parameter
(the code instantiates it with the module constant). -/
def riskExcess (monthly_profits : List ℚ) (rate : ℚ) : List ℚ :=
  monthly_profits.map (fun p => p - rate)

/-- Mean as computed by the source (`sum(xs) / len(xs)`) and by `numpy.mean`
inside `numpy.std`. -/
def listMean (xs : List ℚ) : ℚ := xs.sum / (xs.length : ℚ)

/-- The square of `numpy.std(xs)`: the mean of the squared deviations from
the mean (population convention: divide by N). -/
def npVariance (xs : List ℚ) : ℚ :=
  (xs.map (fun x => (x - listMean xs) ^ 2)).sum / (xs.length : ℚ)

/-- The value of `numpy.std(xs)`: the square root of the population
variance. -/
noncomputable def npStd (xs : List ℚ) : ℝ := Real.sqrt ((npVariance xs : ℚ) : ℝ)

/-- IEEE-754 classification of the value of `excess_average /
excess_std_dev`.  `excess_std_dev` is a `numpy.float64`, so this division
never raises: with a zero denominator (`+0.0`, since `numpy.std` is
non-negative) it yields `nan` when the numerator is `0.0`, `+inf` when it is
positive and `-inf` when it is negative. -/
inductive FloatClass where
  | finite
  | posInf
  | negInf
  | nan
deriving DecidableEq, Repr

/-- Classification of the sharpe-ratio division given the numerator
(`excess_average`) and the square of the denominator (`excess_std_dev ^ 2`,
i.e. the population variance; the standard deviation is zero exactly when
the variance is). -/
def sharpeClass (excess_average excess_variance : ℚ) : FloatClass :=
  if excess_variance = 0 then
    if excess_average = 0 then .nan
    else if 0 < excess_average then .posInf
    else .negInf
  else .finite

/-- The real value of `sharpe_ratio = excess_average / excess_std_dev` in
the finite case. -/
noncomputable def sharpeRatioVal (excess : List ℚ) : ℝ :=
  ((listMean excess : ℚ) : ℝ) / npStd excess

/-- Source line `winning_trades = [p for p in all_positions if p.profit > 0.0]`. -/
def winning_trades (all_positions : List EnrichedPosition) : List EnrichedPosition :=
  all_positions.filter (fun p => decide (0 < p.profit))

/-- Source line `losing_trades = [p for p in all_positions if p.profit < 0.0]`. -/
def losing_trades (all_positions : List EnrichedPosition) : List EnrichedPosition :=
  all_positions.filter (fun p => decide (p.profit < 0))

/-- Python-dict `d[k] += v` for a `defaultdict` with default `0`: update the
(unique) entry for `k` if present, else append a new entry at the end
(Python dicts preserve insertion order). -/
def dictAdd {α : Type} [Add α] : List (String × α) → String → α → List (String × α)
  | [], k, v => [(k, v)]
  | kv :: d, k, v => if kv.1 = k then (kv.1, kv.2 + v) :: d else kv :: dictAdd d k v

/-- Dictionary lookup (first matching key). -/
def dictLookup {α : Type} : List (String × α) → String → Option α
  | [], _ => none
  | kv :: d, k => if kv.1 = k then some kv.2 else dictLookup d k

/-- Lookup with the `defaultdict` default `0`. -/
def dictGet {α : Type} [Zero α] (d : List (String × α)) (k : String) : α :=
  (dictLookup d k).getD 0

/-- Sum of all values of a dictionary. -/
def sumVals {α : Type} [AddCommMonoid α] (d : List (String × α)) : α :=
  (d.map (fun kv => kv.2)).sum

/-- The accumulation loop of `_generate_symbol_data`: for each position, in
input order, `d[position.symbol] += f position` on a `defaultdict(int)`. -/
def buildDict {α : Type} [Add α] (f : EnrichedPosition → α) :
    List EnrichedPosition → List (String × α) → List (String × α)
  | [], d => d
  | p :: ps, d => buildDict f ps (dictAdd d p.symbol (f p))

/-- Number of distinct `(day, month, year)` open-time tuples, as computed
both by the `traded_days` set of `_generate_symbol_data` and by the
`traded_days` expression of `_generate_analysis`. -/
def tradedDaysN (positions : List EnrichedPosition) : ℕ :=
  ((positions.map (fun p => dayKey p.open_datetime)).dedup).length

/-- The result of `_generate_symbol_data`. -/
structure SymbolData where
  symbol_to_profit : List (String × ℚ)
  symbol_to_exec_n : List (String × ℕ)
  symbol_to_exec_avg_n : List (String × ℚ)
deriving DecidableEq, Repr

/-- Source `_generate_symbol_data`: one pass accumulating the traded-day set
and the per-symbol profit/execution dictionaries, then a second loop over the
execution dictionary computing `exec_n / traded_days_n` per symbol.  The
division is only reached when the dictionary is non-empty, in which case
`traded_days_n ≥ 1`. -/
def _generate_symbol_data (positions : List EnrichedPosition) : SymbolData :=
  let traded_days_n := tradedDaysN positions
  let symbol_to_profit := buildDict (fun p => p.profit) positions []
  let symbol_to_exec_n := buildDict (fun _ => (1 : ℕ)) positions []
  { symbol_to_profit := symbol_to_profit
    symbol_to_exec_n := symbol_to_exec_n
    symbol_to_exec_avg_n :=
      symbol_to_exec_n.map (fun kv => (kv.1, (kv.2 : ℚ) / (traded_days_n : ℚ))) }

/-- The `general` section of the analysis report. -/
structure GeneralData where
  start : Date
  endDate : Date
  symbols_n : ℕ
  days_n : ℕ
  profit : ℚ
  exec_n : ℕ
  daily_exec_n : ℚ
  daily_exec_symbol_n : ℚ
deriving DecidableEq, Repr

/-- The `winning_trades` section. -/
structure WinningData where
  total_won : ℚ
  won_n : ℕ
  average_win : ℚ
deriving DecidableEq, Repr

/-- The `losing_trades` section. -/
structure LosingData where
  total_lost : ℚ
  lost_n : ℕ
  average_loss : ℚ
deriving DecidableEq, Repr

/-- The `sharpe_ratio` section.  The code stores
`excess_std_dev = numpy.std(excess_profits)` and
`sharpe_ratio = excess_average / excess_std_dev`; since the standard
deviation is an irrational square root, the structure carries the (rational)
variance instead, with `excess_std_dev = Real.sqrt excess_variance` (see
`npStd`) and the ratio described by `sharpeClass` / `sharpeRatioVal`. -/
structure SharpeData where
  us10y_monthly_yield : ℚ
  excess_average : ℚ
  excess_variance : ℚ
deriving DecidableEq, Repr

/-- The full analysis report returned by `_generate_analysis`. -/
structure Analysis where
  general : GeneralData
  winning : WinningData
  losing : LosingData
  sharpe : SharpeData
  symbol_data : SymbolData
deriving DecidableEq, Repr

/-- Source `_generate_analysis`.  Error behaviour is modelled exactly in
source order: each Python `/` whose right operand is an `int` raises
`ZeroDivisionError` iff that `int` is zero (`exec_n / traded_days`,
`total_won / won_n`, `total_lost / lost_n`,
`sum(excess_profits) / len(excess_profits)`); the float division
`symbols_n / avg_trades_per_day` raises iff the float denominator is zero;
`_calc_monthly_profits` raises `IndexError` on an empty list (unreachable
here, since `traded_days = 0` already failed); the numpy float64 division
`excess_average / excess_std_dev` never raises (see `sharpeClass`).
`positions[0]` / `positions[-1]` in the `general` section are modelled
totally with a default date, being unreachable for the empty list. -/
def _generate_analysis (all_positions : List EnrichedPosition) : Except PyError Analysis :=
  let traded_days : ℕ := tradedDaysN all_positions
  let exec_n : ℕ := all_positions.length * 2
  let symbols_n : ℕ := ((all_positions.map (fun p => p.symbol)).dedup).length
  if traded_days = 0 then .error .zeroDivisionError else
  let avg_trades_per_day : ℚ := (exec_n : ℚ) / (traded_days : ℚ)
  if avg_trades_per_day = 0 then .error .zeroDivisionError else
  let avg_trades_per_day_per_symbol : ℚ := (symbols_n : ℚ) / avg_trades_per_day
  let won_n : ℕ := (winning_trades all_positions).length
  let total_won : ℚ := ((winning_trades all_positions).map (fun p => p.profit)).sum
  if won_n = 0 then .error .zeroDivisionError else
  let average_win : ℚ := total_won / (won_n : ℚ)
  let lost_n : ℕ := (losing_trades all_positions).length
  let total_lost : ℚ := ((losing_trades all_positions).map (fun p => p.profit)).sum
  if lost_n = 0 then .error .zeroDivisionError else
  let average_loss : ℚ := total_lost / (lost_n : ℚ)
  match _calc_monthly_profits all_positions with
  | .error e => .error e
  | .ok monthly_profits =>
    let excess_profits : List ℚ := riskExcess monthly_profits TREASURY_MONTHLY_YIELD
    let excess_variance : ℚ := npVariance excess_profits
    if excess_profits.length = 0 then .error .zeroDivisionError else
    let excess_average : ℚ := listMean excess_profits
    .ok {
      general := {
        start := ((all_positions.map (fun p => p.open_datetime.date)).headD ⟨1970, 1, 1⟩)
        endDate := ((all_positions.map (fun p => p.close_datetime.date)).getLastD ⟨1970, 1, 1⟩)
        symbols_n := symbols_n
        days_n := traded_days
        profit := monthly_profits.sum
        exec_n := all_positions.length * 2
        daily_exec_n := avg_trades_per_day
        daily_exec_symbol_n := avg_trades_per_day_per_symbol }
      winning := {
        total_won := total_won
        won_n := won_n
        average_win := average_win }
      losing := {
        total_lost := total_lost
        lost_n := lost_n
        average_loss := average_loss }
      sharpe := {
        us10y_monthly_yield := TREASURY_MONTHLY_YIELD
        excess_average := excess_average
        excess_variance := excess_variance }
      symbol_data := _generate_symbol_data all_positions }

/-- Month of the running bucket of a run of positions (month of its first
element; `0` only for the empty run, which never occurs). -/
def runMonth : List EnrichedPosition → ℕ
  | [] => 0
  | p :: _ => p.open_datetime.month

/-- Total profit of a run of positions. -/
def runProfit (run : List EnrichedPosition) : ℚ :=
  (run.map (fun p => p.profit)).sum

/-- Spec wording (§4.3): the decomposition of the position sequence into
maximal contiguous runs of positions sharing the same open-time calendar
month, in input order. -/
def monthRuns : List EnrichedPosition → List (List EnrichedPosition)
  | [] => []
  | p :: ps =>
    match monthRuns ps with
    | [] => [[p]]
    | run :: rest =>
      if p.open_datetime.month = runMonth run then (p :: run) :: rest
      else [p] :: run :: rest

/-- Spec wording (§4.3): one bucket per contiguous same-month run, each
bucket being the sum of the profits of the positions of that run. -/
def specMonthlyBuckets (positions : List EnrichedPosition) : List ℚ :=
  (monthRuns positions).map runProfit

/-- Spec wording (§4.4): the arithmetic mean of the excess values. -/
def spec_arithmetic_mean (xs : List ℚ) : ℚ := xs.sum / (xs.length : ℚ)

/-- Spec wording (§4.4): the population standard deviation (divide by N,
not N-1) of the excess values. -/
noncomputable def spec_population_std_dev (xs : List ℚ) : ℝ :=
  Real.sqrt (((xs.map (fun x => (x - spec_arithmetic_mean xs) ^ 2)).sum / (xs.length : ℚ) : ℚ) : ℝ)

/-- Spec wording (§4.6): the number of distinct calendar days on which one
particular symbol traded — the denominator that `avg_exec_per_day` does NOT
use. -/
def perSymbolTradedDaysN (positions : List EnrichedPosition) (s : String) : ℕ :=
  (((positions.filter (fun p => decide (p.symbol = s))).map
    (fun p => dayKey p.open_datetime)).dedup).length

/-- Fixture builder: an enriched position with the given symbol, profit and
open calendar datetime (closing one hour later the same day). -/
def mkPos (sym : String) (profit : ℚ) (y : ℤ) (mo d hr : ℕ) : EnrichedPosition where
  open_bsi := 0
  open_price := 100
  open_timestamp := 0
  close_bsi := 0
  close_price := 100
  close_timestamp := 3600
  profit := profit
  symbol := sym
  std_dev := 5 / 100
  open_datetime := ⟨y, mo, d, hr, 0, 0⟩
  close_datetime := ⟨y, mo, d, hr + 1, 0, 0⟩

/-- A winning trade (profit `+10.0`), June 15 2025. -/
def posWin : EnrichedPosition := mkPos "AAPL" 10 2025 6 15 10

/-- A losing trade (profit `-4.0`), June 15 2025, after `posWin`. -/
def posLose : EnrichedPosition := mkPos "AAPL" (-4) 2025 6 15 12

/-- Fixture for bucketing: June 2025, July 2025, June 2026 (June recurs
after an intervening month). -/
def runsFixture : List EnrichedPosition :=
  [mkPos "AAPL" 1 2025 6 10 9, mkPos "AAPL" 2 2025 7 11 9, mkPos "AAPL" 4 2026 6 12 9]

/-- Fixture for the symbol rollup: symbol "A" trades on one day, symbol "B"
on another, so the overall distinct-day count (2) differs from "A"'s own
day count (1). -/
def rollupFixture : List EnrichedPosition :=
  [mkPos "A" 3 2025 6 1 9, mkPos "B" 5 2025 6 2 9]

/-- Fixture for year-insensitivity: December 2024 immediately followed by
December 2025 (same month number, different year). -/
def decem24 : EnrichedPosition := mkPos "AAPL" 7 2024 12 20 9

/-- Second position of the year-insensitivity fixture. -/
def decem25 : EnrichedPosition := mkPos "AAPL" 9 2025 12 21 9

theorem monthlyLoop_sum (ps : List EnrichedPosition) : ∀ (m : ℕ) (acc : ℚ),
    (monthlyLoop ps m acc).sum = acc + (ps.map (fun p => p.profit)).sum := by
  induction ps with
  | nil => intro m acc; simp [monthlyLoop]
  | cons p ps ih =>
    intro m acc
    by_cases h : p.open_datetime.month = m
    · simp [monthlyLoop, h, ih, add_assoc]
    · simp [monthlyLoop, h, ih, add_assoc]

theorem generalProfit_eq (ps : List EnrichedPosition) :
    (_generate_analysis ps).map (fun a => a.general.profit) =
    (_generate_analysis ps).map (fun _ => (ps.map (fun p => p.profit)).sum) := by
  cases hps : ps with
  | nil => rfl
  | cons p tl =>
    simp only [_generate_analysis]
    repeat' split
    any_goals rfl
    rename_i monthly heq hlen
    simp only [_calc_monthly_profits, Except.ok.injEq] at heq
    subst heq
    simp only [Except.map, monthlyLoop_sum]
    rw [zero_add]

theorem generalExecN_eq (ps : List EnrichedPosition) :
    (_generate_analysis ps).map (fun a => a.general.exec_n) =
    (_generate_analysis ps).map (fun _ => 2 * ps.length) := by
  simp only [_generate_analysis]
  repeat' split
  any_goals rfl
  simp [Except.map, Nat.mul_comm]
theorem monthRuns_eq_nil (ps : List EnrichedPosition) : monthRuns ps = [] ↔ ps = [] := by
  cases ps with
  | nil => simp [monthRuns]
  | cons p tl =>
    simp only [monthRuns]
    cases monthRuns tl with
    | nil => simp
    | cons run rest => by_cases h : p.open_datetime.month = runMonth run <;> simp [h]

theorem monthRuns_join (ps : List EnrichedPosition) : (monthRuns ps).flatten = ps := by
  induction ps with
  | nil => rfl
  | cons p tl ih =>
    simp only [monthRuns]
    cases h : monthRuns tl with
    | nil =>
      rw [h] at ih
      simp only [List.flatten_nil] at ih
      simp [← ih]
    | cons run0 rest =>
      rw [h] at ih
      by_cases hm : p.open_datetime.month = runMonth run0
      · simp [hm, ← ih]
      · simp [hm, ← ih]

theorem monthRuns_months (ps : List EnrichedPosition) :
    ∀ run ∈ monthRuns ps, run ≠ [] ∧ ∀ q ∈ run, q.open_datetime.month = runMonth run := by
  induction ps with
  | nil => simp [monthRuns]
  | cons p tl ih =>
    simp only [monthRuns]
    cases h : monthRuns tl with
    | nil =>
      intro run hr
      simp at hr
      subst hr
      refine ⟨by simp, ?_⟩
      intro q hq
      simp at hq
      subst hq
      rfl
    | cons run0 rest =>
      rw [h] at ih
      by_cases hm : p.open_datetime.month = runMonth run0
      · simp only [if_pos hm]
        intro run hr
        rcases List.mem_cons.mp hr with rfl | hr
        · refine ⟨by simp, ?_⟩
          intro q hq
          rcases List.mem_cons.mp hq with rfl | hq
          · rfl
          · have hq' := (ih run0 (by simp)).2 q hq
            rw [hq']
            exact hm.symm
        · exact ih run (by simp [hr])
      · simp only [if_neg hm]
        intro run hr
        rcases List.mem_cons.mp hr with rfl | hr
        · exact ⟨by simp, by intro q hq; simp at hq; subst hq; rfl⟩
        · exact ih run hr

theorem monthRuns_chain (ps : List EnrichedPosition) :
    List.Chain' (fun r1 r2 => runMonth r1 ≠ runMonth r2) (monthRuns ps) := by
  induction ps with
  | nil => simp [monthRuns]
  | cons p tl ih =>
    simp only [monthRuns]
    cases h : monthRuns tl with
    | nil => simp
    | cons run0 rest =>
      rw [h] at ih
      by_cases hm : p.open_datetime.month = runMonth run0
      · simp only [if_pos hm]
        cases rest with
        | nil => simp
        | cons r1 rest' =>
          rw [List.chain'_cons] at ih ⊢
          refine ⟨?_, ih.2⟩
          simpa [runMonth, hm] using ih.1
      · simp only [if_neg hm]
        rw [List.chain'_cons]
        exact ⟨by simpa [runMonth] using hm, ih⟩
@[simp] theorem runMonth_cons (p : EnrichedPosition) (l : List EnrichedPosition) :
    runMonth (p :: l) = p.open_datetime.month := rfl

@[simp] theorem runProfit_nil : runProfit [] = 0 := rfl

@[simp] theorem runProfit_cons (p : EnrichedPosition) (l : List EnrichedPosition) :
    runProfit (p :: l) = p.profit + runProfit l := by simp [runProfit]

@[simp] theorem monthlyLoop_cons (p : EnrichedPosition) (ps : List EnrichedPosition)
    (m : ℕ) (acc : ℚ) :
    monthlyLoop (p :: ps) m acc =
      if p.open_datetime.month ≠ m then acc :: monthlyLoop ps p.open_datetime.month p.profit
      else monthlyLoop ps m (acc + p.profit) := rfl

theorem monthlyLoop_runs (ps : List EnrichedPosition) :
    ∀ (m : ℕ) (acc : ℚ) (run : List EnrichedPosition) (rest : List (List EnrichedPosition)),
    monthRuns ps = run :: rest →
    monthlyLoop ps m acc =
      if runMonth run = m then (acc + runProfit run) :: rest.map runProfit
      else acc :: (run :: rest).map runProfit := by
  induction ps with
  | nil => intro m acc run rest h; simp [monthRuns] at h
  | cons p tl ih =>
    intro m acc run rest h
    simp only [monthRuns] at h
    cases htl : monthRuns tl with
    | nil =>
      rw [htl] at h
      dsimp only at h
      injection h with h1 h2
      subst h1
      subst h2
      have htl' : tl = [] := (monthRuns_eq_nil tl).mp htl
      subst htl'
      by_cases hm : p.open_datetime.month = m
      · simp [monthlyLoop, hm]
      · simp [monthlyLoop, hm]
    | cons run0 rest0 =>
      rw [htl] at h
      dsimp only at h
      by_cases hr : p.open_datetime.month = runMonth run0
      · rw [if_pos hr] at h
        injection h with h1 h2
        subst h1
        subst h2
        by_cases hm : p.open_datetime.month = m
        · have hrm : runMonth run0 = m := hr.symm.trans hm
          rw [monthlyLoop_cons, if_neg (not_not_intro hm),
            ih m (acc + p.profit) run0 rest0 htl, if_pos hrm]
          simp [hm, add_assoc]
        · have hrm : ¬ runMonth run0 = m := fun hc => hm (hr.trans hc)
          rw [monthlyLoop_cons, if_pos hm,
            ih p.open_datetime.month p.profit run0 rest0 htl, if_pos hr.symm]
          simp [hm]
      · rw [if_neg hr] at h
        injection h with h1 h2
        subst h1
        subst h2
        by_cases hm : p.open_datetime.month = m
        · have hrm : ¬ runMonth run0 = m := fun hc => hr (hm.trans hc.symm)
          rw [monthlyLoop_cons, if_neg (not_not_intro hm),
            ih m (acc + p.profit) run0 rest0 htl, if_neg hrm]
          simp [hm]
        · have hrm : ¬ runMonth run0 = p.open_datetime.month := fun hc => hr hc.symm
          rw [monthlyLoop_cons, if_pos hm,
            ih p.open_datetime.month p.profit run0 rest0 htl, if_neg hrm]
          simp [hm]
theorem monthRuns_head (p : EnrichedPosition) (ps : List EnrichedPosition) :
    ∃ t rest, monthRuns (p :: ps) = (p :: t) :: rest := by
  simp only [monthRuns]
  cases monthRuns ps with
  | nil => exact ⟨[], [], rfl⟩
  | cons run rest =>
    by_cases h : p.open_datetime.month = runMonth run
    · exact ⟨run, rest, by dsimp only; rw [if_pos h]⟩
    · exact ⟨[], run :: rest, by dsimp only; rw [if_neg h]⟩

theorem calc_eq_specBuckets (ps : List EnrichedPosition) (hne : ps ≠ []) :
    _calc_monthly_profits ps = .ok (specMonthlyBuckets ps) := by
  cases ps with
  | nil => exact absurd rfl hne
  | cons p tl =>
    obtain ⟨t, rest, hruns⟩ := monthRuns_head p tl
    simp only [_calc_monthly_profits, specMonthlyBuckets, hruns,
      monthlyLoop_runs (p :: tl) p.open_datetime.month 0 (p :: t) rest hruns]
    rw [if_pos (by simp)]
    simp

theorem mergeLoop (l : List EnrichedPosition) (p q : EnrichedPosition)
    (hm : q.open_datetime.month = p.open_datetime.month) (r : List EnrichedPosition) :
    ∀ (m : ℕ) (acc : ℚ),
    monthlyLoop (l ++ p :: q :: r) m acc =
    monthlyLoop (l ++ { p with profit := p.profit + q.profit } :: r) m acc := by
  induction l with
  | nil =>
    intro m acc
    by_cases h : p.open_datetime.month = m
    · simp [monthlyLoop_cons, h, hm, add_assoc]
    · simp [monthlyLoop_cons, h, hm, add_assoc]
  | cons x l ih =>
    intro m acc
    by_cases h : x.open_datetime.month = m
    · simp [monthlyLoop_cons, h, ih]
    · simp [monthlyLoop_cons, h, ih]

theorem calc_merge (l r : List EnrichedPosition) (p q : EnrichedPosition)
    (hm : q.open_datetime.month = p.open_datetime.month) :
    _calc_monthly_profits (l ++ p :: q :: r) =
    _calc_monthly_profits (l ++ { p with profit := p.profit + q.profit } :: r) := by
  cases l with
  | nil =>
    have h2 := mergeLoop [] p q hm r p.open_datetime.month 0
    simp only [List.nil_append] at h2
    simp only [List.nil_append, _calc_monthly_profits]
    rw [h2]
  | cons x l' =>
    simp only [List.cons_append, _calc_monthly_profits]
    have h2 := mergeLoop (x :: l') p q hm r x.open_datetime.month 0
    simp only [List.cons_append] at h2
    rw [h2]
theorem dictLookup_dictAdd {α : Type} [AddMonoid α] (d : List (String × α)) (k0 k : String)
    (v : α) :
    dictLookup (dictAdd d k0 v) k =
      if k = k0 then some ((dictLookup d k).getD 0 + v) else dictLookup d k := by
  induction d with
  | nil =>
    by_cases h : k = k0
    · subst h; simp [dictAdd, dictLookup]
    · simp [dictAdd, dictLookup, h, Ne.symm h]
  | cons kv d ih =>
    obtain ⟨a, b⟩ := kv
    by_cases h1 : a = k0
    · subst h1
      by_cases h2 : k = a
      · subst h2; simp [dictAdd, dictLookup]
      · simp [dictAdd, dictLookup, h2, Ne.symm h2]
    · by_cases h2 : k = a
      · subst h2
        simp [dictAdd, dictLookup, Ne.symm h1, h1]
      · simp [dictAdd, dictLookup, h1, h2, Ne.symm h2, ih]

theorem dictLookup_buildDict {α : Type} [AddMonoid α] (f : EnrichedPosition → α)
    (ps : List EnrichedPosition) : ∀ (d : List (String × α)) (k : String),
    dictLookup (buildDict f ps d) k =
      match dictLookup d k with
      | some v => some (v + ((ps.filter (fun p => decide (p.symbol = k))).map f).sum)
      | none =>
        if k ∈ ps.map (fun p => p.symbol) then
          some (((ps.filter (fun p => decide (p.symbol = k))).map f).sum)
        else none := by
  induction ps with
  | nil => intro d k; cases h : dictLookup d k <;> simp [buildDict, h]
  | cons p ps ih =>
    intro d k
    simp only [buildDict]
    rw [ih (dictAdd d p.symbol (f p)) k, dictLookup_dictAdd]
    by_cases hk : k = p.symbol
    · subst hk
      rw [if_pos rfl]
      cases h : dictLookup d p.symbol <;> simp [h, List.filter_cons, add_assoc]
    · rw [if_neg hk]
      cases h : dictLookup d k with
      | some v => simp [h, List.filter_cons, Ne.symm hk]
      | none => simp [h, List.filter_cons, Ne.symm hk, hk]

theorem dictLookup_mapVals {α β : Type} (g : α → β) (d : List (String × α)) (k : String) :
    dictLookup (d.map (fun kv => (kv.1, g kv.2))) k = (dictLookup d k).map g := by
  induction d with
  | nil => rfl
  | cons kv d ih => by_cases h : kv.1 = k <;> simp [dictLookup, h, ih]

theorem sumVals_dictAdd {α : Type} [AddCommMonoid α] (d : List (String × α)) (k : String)
    (v : α) : sumVals (dictAdd d k v) = sumVals d + v := by
  induction d with
  | nil => simp [dictAdd, sumVals]
  | cons kv d ih =>
    obtain ⟨a, b⟩ := kv
    by_cases h : a = k
    · subst h
      rw [show dictAdd ((a, b) :: d) a v = (a, b + v) :: d from by simp [dictAdd]]
      simp only [sumVals, List.map_cons, List.sum_cons]
      abel
    · simp only [dictAdd, if_neg h, sumVals, List.map_cons, List.sum_cons] at ih ⊢
      rw [ih, add_assoc]

theorem sumVals_buildDict {α : Type} [AddCommMonoid α] (f : EnrichedPosition → α)
    (ps : List EnrichedPosition) : ∀ (d : List (String × α)),
    sumVals (buildDict f ps d) = sumVals d + (ps.map f).sum := by
  induction ps with
  | nil => intro d; simp [buildDict]
  | cons p ps ih =>
    intro d
    simp only [buildDict]
    rw [ih (dictAdd d p.symbol (f p)), sumVals_dictAdd]
    simp only [List.map_cons, List.sum_cons]
    abel

theorem sum_map_one (l : List EnrichedPosition) : (l.map (fun _ => (1 : ℕ))).sum = l.length := by
  induction l <;> simp [*, Nat.add_comm]
theorem winLose_le (ps : List EnrichedPosition) :
    (winning_trades ps).length + (losing_trades ps).length ≤ ps.length := by
  induction ps with
  | nil => simp [winning_trades, losing_trades]
  | cons p ps ih =>
    simp only [winning_trades, losing_trades, List.filter_cons] at ih ⊢
    rcases lt_trichotomy p.profit 0 with h | h | h
    · simp only [decide_eq_true_eq, if_pos h, if_neg (lt_asymm h), List.length_cons]
      omega
    · have h1 : ¬ 0 < p.profit := by simp [h]
      have h2 : ¬ p.profit < 0 := by simp [h]
      simp only [decide_eq_true_eq, if_neg h1, if_neg h2, List.length_cons]
      omega
    · simp only [decide_eq_true_eq, if_pos h, if_neg (lt_asymm h), List.length_cons]
      omega

theorem winLose_eq_iff (ps : List EnrichedPosition) :
    (winning_trades ps).length + (losing_trades ps).length = ps.length ↔
      ∀ p ∈ ps, p.profit ≠ 0 := by
  induction ps with
  | nil => simp [winning_trades, losing_trades]
  | cons p ps ih =>
    have hle := winLose_le ps
    simp only [winning_trades, losing_trades, List.filter_cons] at ih hle ⊢
    rcases lt_trichotomy p.profit 0 with h | h | h
    · simp only [decide_eq_true_eq, if_pos h, if_neg (lt_asymm h), List.length_cons,
        List.mem_cons, forall_eq_or_imp, ne_eq, h.ne, not_false_eq_true, true_and]
      rw [← ih]
      omega
    · have h1 : ¬ 0 < p.profit := by simp [h]
      have h2 : ¬ p.profit < 0 := by simp [h]
      simp only [decide_eq_true_eq, if_neg h1, if_neg h2, List.length_cons]
      simp only [List.mem_cons, forall_eq_or_imp, ne_eq, h, not_true_eq_false,
        false_and, iff_false]
      omega
    · simp only [decide_eq_true_eq, if_pos h, if_neg (lt_asymm h), List.length_cons,
        List.mem_cons, forall_eq_or_imp, ne_eq, h.ne.symm, not_false_eq_true, true_and]
      rw [← ih]
      omega
theorem exec_lookup (ps : List EnrichedPosition) (s : String)
    (hs : s ∈ ps.map (fun p => p.symbol)) :
    dictLookup (buildDict (fun _ => (1 : ℕ)) ps []) s =
      some ((ps.filter (fun p => decide (p.symbol = s))).length) := by
  rw [dictLookup_buildDict]
  simp only [dictLookup]
  rw [if_pos hs, sum_map_one]

/-- C2 (code_bug evaluation): on the empty position sequence the Monthly
Profit Aggregator fails with `IndexError` (from `positions[0]`) and the
Report Assembler fails with `ZeroDivisionError` (from `exec_n /
traded_days` with `traded_days = 0`) — not with an `EmptyInputError`, which
the code never defines. -/
theorem c2_theorem :
    _calc_monthly_profits [] = Except.error PyError.indexError ∧
    _generate_analysis [] = Except.error PyError.zeroDivisionError := ⟨rfl, rfl⟩

/-- C3 (code_bug evaluation): with a single winning position the losing
category is empty and `_generate_analysis` fails with a bare
`ZeroDivisionError` at `total_lost / lost_n`; symmetrically with a single
losing position it fails at `total_won / won_n`.  No
`NoTradesInCategoryError` exists in the code: the division by the zero
count simply propagates. -/
theorem c3_theorem :
    losing_trades [posWin] = [] ∧
    _generate_analysis [posWin] = Except.error PyError.zeroDivisionError ∧
    winning_trades [posLose] = [] ∧
    _generate_analysis [posLose] = Except.error PyError.zeroDivisionError := by
  refine ⟨by norm_num [losing_trades, posWin, mkPos], ?_, by norm_num [winning_trades, posLose, mkPos], ?_⟩
  · norm_num [_generate_analysis, tradedDaysN, dayKey, posWin, mkPos, winning_trades, losing_trades]
  · norm_num [_generate_analysis, tradedDaysN, dayKey, posLose, mkPos, winning_trades, losing_trades]

/-- C1 (code_bug evaluation): two same-month positions (profits `+10.0`,
`-4.0`) produce exactly one monthly bucket, yet report assembly SUCCEEDS,
returning a report whose sharpe ratio is the IEEE value `+inf`
(`excess_average = 5.88` divided by the zero standard deviation) — it does
not fail with an `UndefinedRatioError`, which the code never defines. -/
theorem c1_theorem :
    (_calc_monthly_profits [posWin, posLose]).map List.length = Except.ok 1 ∧
    (_generate_analysis [posWin, posLose]).map
      (fun a => sharpeClass a.sharpe.excess_average a.sharpe.excess_variance) =
      Except.ok FloatClass.posInf := by
  refine ⟨rfl, ?_⟩
  norm_num [_generate_analysis, tradedDaysN, dayKey, posWin, posLose, mkPos, winning_trades,
    losing_trades, _calc_monthly_profits, monthlyLoop, riskExcess, TREASURY_MONTHLY_YIELD,
    npVariance, listMean, sharpeClass, Except.map]

/-- C4 (confirmed): for every non-empty position sequence sorted by open
time, the sum of the Monthly Profit Aggregator's buckets equals the sum of
the individual profits, and the report's `general.profit` field equals that
same total (the code computes it as `sum(monthly_profits)`). -/
theorem c4_theorem (ps : List EnrichedPosition) (hne : ps ≠ [])
    (hs : sortedByOpenDT ps = true) :
    (∀ rs, _calc_monthly_profits ps = Except.ok rs →
      rs.sum = (ps.map (fun p => p.profit)).sum) ∧
    (_generate_analysis ps).map (fun a => a.general.profit) =
      (_generate_analysis ps).map (fun _ => (ps.map (fun p => p.profit)).sum) := by
  refine ⟨?_, generalProfit_eq ps⟩
  intro rs h
  cases ps with
  | nil => exact absurd rfl hne
  | cons p tl =>
    simp only [_calc_monthly_profits, Except.ok.injEq] at h
    subst h
    rw [monthlyLoop_sum, zero_add]

/-- Witness for C4 at the two-position fixture. -/
theorem c4_witness :
    ([posWin, posLose] ≠ []) ∧ sortedByOpenDT [posWin, posLose] = true ∧
    ([(0 : ℚ) + 10 + -4].sum = ([posWin, posLose].map (fun p => p.profit)).sum) ∧
    (_generate_analysis [posWin, posLose]).map (fun a => a.general.profit) =
      (_generate_analysis [posWin, posLose]).map
        (fun _ => ([posWin, posLose].map (fun p => p.profit)).sum) := by
  have h := c4_theorem [posWin, posLose] (by decide) (by decide)
  exact ⟨by decide, by decide, h.1 [(0 : ℚ) + 10 + -4] rfl, h.2⟩

/-- C5 (confirmed): `monthRuns` is the decomposition of the input into
maximal contiguous runs of same-open-month positions (their concatenation
restores the input, every run is non-empty and single-month, adjacent runs
have different months), and `_calc_monthly_profits` returns exactly one
bucket per run, the sum of that run's profits — so a month seen again after
an intervening different month starts a new bucket. -/
theorem c5_theorem (ps : List EnrichedPosition) (hne : ps ≠ [])
    (hs : sortedByOpenDT ps = true) :
    (monthRuns ps).flatten = ps ∧
    (∀ run ∈ monthRuns ps, run ≠ [] ∧ ∀ q ∈ run, q.open_datetime.month = runMonth run) ∧
    List.Chain' (fun r1 r2 => runMonth r1 ≠ runMonth r2) (monthRuns ps) ∧
    _calc_monthly_profits ps = Except.ok (specMonthlyBuckets ps) :=
  ⟨monthRuns_join ps, monthRuns_months ps, monthRuns_chain ps, calc_eq_specBuckets ps hne⟩

/-- Witness for C5 at the June/July/June fixture (three buckets). -/
theorem c5_witness :
    (runsFixture ≠ []) ∧ sortedByOpenDT runsFixture = true ∧
    _calc_monthly_profits runsFixture = Except.ok (specMonthlyBuckets runsFixture) :=
  ⟨by decide, by decide, (c5_theorem runsFixture (by decide) (by decide)).2.2.2⟩

/-- C7 (confirmed): a position is in the winning category iff its profit is
strictly positive and in the losing category iff strictly negative, no
position is in both, the category counts sum to at most the position count,
and the sum equals the count exactly when no position has profit zero. -/
theorem c7_theorem (ps : List EnrichedPosition) :
    (∀ p, p ∈ winning_trades ps ↔ p ∈ ps ∧ 0 < p.profit) ∧
    (∀ p, p ∈ losing_trades ps ↔ p ∈ ps ∧ p.profit < 0) ∧
    (∀ p, ¬(p ∈ winning_trades ps ∧ p ∈ losing_trades ps)) ∧
    (winning_trades ps).length + (losing_trades ps).length ≤ ps.length ∧
    ((winning_trades ps).length + (losing_trades ps).length = ps.length ↔
      ∀ p ∈ ps, p.profit ≠ 0) := by
  refine ⟨?_, ?_, ?_, winLose_le ps, winLose_eq_iff ps⟩
  · intro p; simp [winning_trades, List.mem_filter]
  · intro p; simp [losing_trades, List.mem_filter]
  · intro p hc
    have h1 := (List.mem_filter.mp hc.1).2
    have h2 := (List.mem_filter.mp hc.2).2
    simp only [decide_eq_true_eq] at h1 h2
    exact lt_asymm h1 h2

/-- Witness for C7 at the two-position fixture (binder-free instance). -/
theorem c7_witness :
    (posWin ∈ winning_trades [posWin, posLose] ↔
      posWin ∈ [posWin, posLose] ∧ 0 < posWin.profit) ∧
    (posLose ∈ losing_trades [posWin, posLose] ↔
      posLose ∈ [posWin, posLose] ∧ posLose.profit < 0) ∧
    ¬(posWin ∈ winning_trades [posWin, posLose] ∧
      posWin ∈ losing_trades [posWin, posLose]) ∧
    (winning_trades [posWin, posLose]).length + (losing_trades [posWin, posLose]).length ≤
      [posWin, posLose].length := by
  have h := c7_theorem [posWin, posLose]
  exact ⟨h.1 posWin, h.2.1 posLose, h.2.2.1 posWin, h.2.2.2.1⟩

/-- C10 (confirmed): the bucketing compares month-of-year numbers only.  A
position immediately followed by one with the same open month of a
different year is absorbed into the same bucket: the output is unchanged if
the two are replaced by a single position carrying their combined profit. -/
theorem c10_theorem (l r : List EnrichedPosition) (p q : EnrichedPosition)
    (hm : q.open_datetime.month = p.open_datetime.month)
    (hy : q.open_datetime.year ≠ p.open_datetime.year) :
    _calc_monthly_profits (l ++ p :: q :: r) =
      _calc_monthly_profits (l ++ { p with profit := p.profit + q.profit } :: r) :=
  calc_merge l r p q hm

/-- Witness for C10: December 2024 followed by December 2025. -/
theorem c10_witness :
    decem25.open_datetime.month = decem24.open_datetime.month ∧
    decem25.open_datetime.year ≠ decem24.open_datetime.year ∧
    _calc_monthly_profits ([] ++ decem24 :: decem25 :: []) =
      _calc_monthly_profits
        ([] ++ { decem24 with profit := decem24.profit + decem25.profit } :: []) :=
  ⟨by decide, by decide, c10_theorem [] [] decem24 decem25 (by decide) (by decide)⟩
/-- C6 counterexample: on the spec's own three-bucket example
`[0.12, 0.12, 0.12]` with rate `0.12` (three buckets, so the claim's
premise holds) the excess values are all zero, and the sharpe division
classifies as `nan` — not a real number equal to
`excess_average / excess_std_dev`. -/
theorem c6_counterexample :
    sharpeClass (listMean (riskExcess [12 / 100, 12 / 100, 12 / 100] (12 / 100)))
      (npVariance (riskExcess [12 / 100, 12 / 100, 12 / 100] (12 / 100))) = FloatClass.nan ∧
    FloatClass.nan ≠ FloatClass.finite := by
  refine ⟨?_, by decide⟩
  norm_num [sharpeClass, listMean, npVariance, riskExcess]

/-- C6 (corrected): for at least two buckets, `excess_average` is the
arithmetic mean of the excess values and `excess_std_dev` is their
population standard deviation (divide by N), exactly as the spec words
them; and whenever that standard deviation is nonzero the sharpe ratio is
the finite quotient `excess_average / excess_std_dev`. -/
theorem c6_theorem (ms : List ℚ) (r : ℚ) (h2 : 2 ≤ ms.length) :
    listMean (riskExcess ms r) = spec_arithmetic_mean (riskExcess ms r) ∧
    npStd (riskExcess ms r) = spec_population_std_dev (riskExcess ms r) ∧
    (npVariance (riskExcess ms r) ≠ 0 →
      sharpeClass (listMean (riskExcess ms r)) (npVariance (riskExcess ms r)) =
        FloatClass.finite ∧
      sharpeRatioVal (riskExcess ms r) =
        ((listMean (riskExcess ms r) : ℚ) : ℝ) / npStd (riskExcess ms r)) :=
  ⟨rfl, rfl, fun hv => ⟨by simp [sharpeClass, hv], rfl⟩⟩

/-- Witness for C6 at monthly profits `[1, 3]`, rate `0`. -/
theorem c6_witness :
    2 ≤ ([1, 3] : List ℚ).length ∧
    (listMean (riskExcess [1, 3] 0) = spec_arithmetic_mean (riskExcess [1, 3] 0) ∧
     npStd (riskExcess [1, 3] 0) = spec_population_std_dev (riskExcess [1, 3] 0) ∧
     (npVariance (riskExcess [1, 3] 0) ≠ 0 →
       sharpeClass (listMean (riskExcess [1, 3] 0)) (npVariance (riskExcess [1, 3] 0)) =
         FloatClass.finite ∧
       sharpeRatioVal (riskExcess [1, 3] 0) =
         ((listMean (riskExcess [1, 3] 0) : ℚ) : ℝ) / npStd (riskExcess [1, 3] 0))) :=
  ⟨by decide, c6_theorem [1, 3] 0 (by decide)⟩

/-- C8 (confirmed): for every symbol that occurs, `avg_exec_per_day` is the
symbol's execution count divided by the number of distinct `(day, month,
year)` open dates across ALL positions — the same denominator for every
symbol; and on a fixture where symbol "A" trades on one of two overall
days, this differs from dividing by "A"'s own distinct-day count. -/
theorem c8_theorem (ps : List EnrichedPosition) (hne : ps ≠ []) :
    (∀ s ∈ ps.map (fun p => p.symbol),
      dictLookup ((_generate_symbol_data ps).symbol_to_exec_avg_n) s =
        some (((ps.filter (fun p => decide (p.symbol = s))).length : ℚ) /
          (tradedDaysN ps : ℚ))) ∧
    dictLookup ((_generate_symbol_data rollupFixture).symbol_to_exec_avg_n) "A" ≠
      some (((rollupFixture.filter (fun p => decide (p.symbol = "A"))).length : ℚ) /
        (perSymbolTradedDaysN rollupFixture "A" : ℚ)) := by
  constructor
  · intro s hs
    show dictLookup ((buildDict (fun _ => (1 : ℕ)) ps []).map
      (fun kv => (kv.1, (kv.2 : ℚ) / (tradedDaysN ps : ℚ)))) s = _
    rw [dictLookup_mapVals (fun n : ℕ => (n : ℚ) / (tradedDaysN ps : ℚ)), exec_lookup ps s hs]
    rfl
  · show dictLookup ((buildDict (fun _ => (1 : ℕ)) rollupFixture []).map
      (fun kv => (kv.1, (kv.2 : ℚ) / (tradedDaysN rollupFixture : ℚ)))) "A" ≠ _
    have hBA : ¬ ("B" = "A") := by decide
    have hAB : ¬ ("A" = "B") := by decide
    norm_num [rollupFixture, mkPos, buildDict, dictAdd, dictLookup, tradedDaysN, dayKey,
      perSymbolTradedDaysN, List.dedup, List.filter_cons, List.filter_nil, List.pwFilter,
      hBA, hAB]

/-- Witness for C8 at the two-symbol fixture. -/
theorem c8_witness :
    (rollupFixture ≠ []) ∧
    dictLookup ((_generate_symbol_data rollupFixture).symbol_to_exec_avg_n) "A" =
      some (((rollupFixture.filter (fun p => decide (p.symbol = "A"))).length : ℚ) /
        (tradedDaysN rollupFixture : ℚ)) :=
  ⟨by decide, (c8_theorem rollupFixture (by decide)).1 "A" (by decide)⟩

/-- C9 (confirmed): the report's `general.exec_n` is twice the position
count, the per-symbol rollup counts one execution per position of that
symbol, and the rollup counts sum over all symbols to half of
`general.exec_n`. -/
theorem c9_theorem (ps : List EnrichedPosition) (hne : ps ≠ []) :
    (_generate_analysis ps).map (fun a => a.general.exec_n) =
      (_generate_analysis ps).map (fun _ => 2 * ps.length) ∧
    (∀ s : String, dictGet ((_generate_symbol_data ps).symbol_to_exec_n) s =
      (ps.filter (fun p => decide (p.symbol = s))).length) ∧
    sumVals ((_generate_symbol_data ps).symbol_to_exec_n) = 2 * ps.length / 2 := by
  refine ⟨generalExecN_eq ps, ?_, ?_⟩
  · intro s
    show dictGet (buildDict (fun _ => (1 : ℕ)) ps []) s = _
    by_cases hs : s ∈ ps.map (fun p => p.symbol)
    · rw [dictGet, exec_lookup ps s hs]
      rfl
    · rw [dictGet, dictLookup_buildDict]
      simp only [dictLookup]
      rw [if_neg hs]
      have hfil : ps.filter (fun p => decide (p.symbol = s)) = [] := by
        rw [List.filter_eq_nil_iff]
        intro a ha hc
        exact hs (List.mem_map.mpr ⟨a, ha, by simpa using hc⟩)
      simp [hfil]
  · show sumVals (buildDict (fun _ => (1 : ℕ)) ps []) = 2 * ps.length / 2
    rw [sumVals_buildDict, sum_map_one]
    simp only [sumVals, List.map_nil, List.sum_nil]
    omega

/-- Witness for C9 at the two-position fixture. -/
theorem c9_witness :
    ([posWin, posLose] ≠ []) ∧
    (_generate_analysis [posWin, posLose]).map (fun a => a.general.exec_n) =
      (_generate_analysis [posWin, posLose]).map (fun _ => 2 * [posWin, posLose].length) ∧
    dictGet ((_generate_symbol_data [posWin, posLose]).symbol_to_exec_n) "AAPL" =
      ([posWin, posLose].filter (fun p => decide (p.symbol = "AAPL"))).length ∧
    sumVals ((_generate_symbol_data [posWin, posLose]).symbol_to_exec_n) =
      2 * [posWin, posLose].length / 2 := by
  have h := c9_theorem [posWin, posLose] (by decide)
  exact ⟨by decide, h.1, h.2.1 "AAPL", h.2.2⟩
